import Mathlib

/-!
Verification development for the Analyzer_Katalon repository.

The repository ships a Next.js front end (`src/Next_Katalon`): an API client
(`lib/api.ts`) and section components (`components/*.tsx`).  The analysis
engine itself (walker, parsers, resolver, statistics) is documented but its
code is not part of the repository snapshot; where a claim depends on it, the
corresponding definitions are modelled from the specification and are marked
as such in their doc comments.

All machine arithmetic in the embedded code is on small non-negative values
(list lengths, page numbers), modelled by `Nat`; percentages are modelled by
`ℚ` (JavaScript numbers here only ever hold exact small rationals).
-/

namespace AnalyzerKatalon

/-! ### API client query guards (`src/Next_Katalon/lib/api.ts`) -/

/-- Function `searchTestCases` from `lib/api.ts`: throws `'Search query cannot be empty'`
when `!query || query.trim().length === 0`; otherwise issues the request,
modelled as returning the forwarded `(project_path, q)` pair. -/
def searchTestCases (projectPath query : String) : Except String (String × String) :=
  if query = "" ∨ (query.trim).length = 0 then Except.error "Search query cannot be empty"
  else Except.ok (projectPath, query)

/-- Function `searchKeywords` from `lib/api.ts`: same blank-query guard as
`searchTestCases`. -/
def searchKeywords (projectPath query : String) : Except String (String × String) :=
  if query = "" ∨ (query.trim).length = 0 then Except.error "Search query cannot be empty"
  else Except.ok (projectPath, query)

/-- Function `searchTestSuites` from `lib/api.ts`: same blank-query guard. -/
def searchTestSuites (projectPath query : String) : Except String (String × String) :=
  if query = "" ∨ (query.trim).length = 0 then Except.error "Search query cannot be empty"
  else Except.ok (projectPath, query)

/-- Function `searchObjectRepository` from `lib/api.ts`: same blank-query guard. -/
def searchObjectRepository (projectPath query : String) : Except String (String × String) :=
  if query = "" ∨ (query.trim).length = 0 then Except.error "Search query cannot be empty"
  else Except.ok (projectPath, query)

/-- Function `getProfiles` from `lib/api.ts`: appends `project_path` always and `q` only
when `q` is truthy (`if (q) params.append('q', q)`), then issues the request;
there is no blank-query rejection.  The result models the query-string
parameter list that is sent. -/
def getProfiles (projectPath : String) (q : Option String) :
    Except String (List (String × String)) :=
  Except.ok (("project_path", projectPath) ::
    (match q with
     | some s => if s = "" then [] else [("q", s)]
     | none => []))

/-- Function `getScripts` from `lib/api.ts`: identical parameter handling to
`getProfiles`. -/
def getScripts (projectPath : String) (q : Option String) :
    Except String (List (String × String)) :=
  Except.ok (("project_path", projectPath) ::
    (match q with
     | some s => if s = "" then [] else [("q", s)]
     | none => []))

/-! ### Pagination (section components `TestCasesSection.tsx`,
`TestSuitesSection.tsx`, `KeywordsSection.tsx`, `ObjectRepositorySection.tsx`;
all four share the same pagination code) -/

/-- Constant `itemsPerPage = 10` in every section component. -/
def itemsPerPage : Nat := 10

/-- Source line `const totalPages = Math.ceil(total / itemsPerPage)`. -/
def totalPages (total : Nat) : Nat := (total + itemsPerPage - 1) / itemsPerPage

/-- One click on a pagination control.  `item n` is a click on the rendered
`Pagination.Item` for page `n`; the component only renders items for pages
in `1..totalPages`. -/
inductive PageClick where
  | first
  | prev
  | next
  | last
  | item (n : Nat)
deriving DecidableEq

/-- The `setCurrentPage` update performed by each control:
`First ↦ 1`, `Prev ↦ Math.max(1, p - 1)`, `Next ↦ Math.min(totalPages, p + 1)`,
`Last ↦ totalPages`, `Item n ↦ n`. -/
def clickStep (tp page : Nat) : PageClick → Nat
  | PageClick.first => 1
  | PageClick.prev => max 1 (page - 1)
  | PageClick.next => min tp (page + 1)
  | PageClick.last => tp
  | PageClick.item n => n

/-- Run a sequence of pagination clicks starting from the initial state
`useState(1)`. -/
def runClicks (tp : Nat) (clicks : List PageClick) : Nat :=
  clicks.foldl (clickStep tp) 1

/-- A click the UI can actually deliver: `Pagination.Item` buttons exist only
for pages `1..totalPages`; the other four controls always exist. -/
def validClick (tp : Nat) : PageClick → Prop
  | PageClick.item n => 1 ≤ n ∧ n ≤ tp
  | _ => True

/-! ### Recent projects (`src/Next_Katalon/components/ProjectSelector.tsx`) -/

/-- The recent-projects update in `validateAndSelect` after a successful
`getProjectSummary`:
`[path.trim(), ...recentProjects.filter(p => p !== path.trim())].slice(0, 5)`. -/
def updateRecent (recent : List String) (path : String) : List String :=
  (path.trim :: recent.filter (fun p => p ≠ path.trim)).take 5

/-! ### Keyword search dedup (`src/Next_Katalon/components/KeywordsSection.tsx`) -/

/-- The keyword-file record carried by each search result (fields relevant to
the dedup logic; `pkg` stands for the remaining payload distinguishing file
objects). -/
structure KwFileRec where
  relative_path : String
  pkg : String
deriving DecidableEq

/-- Models `JSON.stringify(file)` far enough for key comparison: a string
determined by the whole record (`none` models an absent `file` field). -/
def encodeKwFile : Option KwFileRec → String
  | none => "undefined"
  | some f => "[" ++ f.relative_path ++ "|" ++ f.pkg ++ "]"

/-- One entry of the backend search response: `{ keyword, file }`. -/
structure KwSearchResult where
  keyword : String
  file : Option KwFileRec
deriving DecidableEq

/-- Source line `const key = file?.relative_path || JSON.stringify(file)`: the
`relative_path` when the file exists and the path is a non-empty (truthy)
string, otherwise the serialized file. -/
def fileKey (file : Option KwFileRec) : String :=
  match file with
  | some f => if f.relative_path = "" then encodeKwFile (some f) else f.relative_path
  | none => encodeKwFile none

/-- The `fileMap` loop of `handleSearch`: walk the results in order, keep a
result's `file` only when no earlier result produced the same key (a JS `Map`
keeps the first value set for a key, and `values()` is insertion-ordered). -/
def dedupFilesGo (seen : List String) : List KwSearchResult → List (Option KwFileRec)
  | [] => []
  | r :: rs =>
    if fileKey r.file ∈ seen then dedupFilesGo seen rs
    else r.file :: dedupFilesGo (fileKey r.file :: seen) rs

/-- Result `Array.from(fileMap.values())` after the `handleSearch` loop. -/
def dedupFiles (results : List KwSearchResult) : List (Option KwFileRec) :=
  dedupFilesGo [] results

/-- The claim's own description of the dedup, written from its words for
comparison with `dedupFiles`: one row per distinct key, keeping the file of
the first result carrying that key, in first-occurrence order. -/
def dedupFilesSpec : List KwSearchResult → List (Option KwFileRec)
  | [] => []
  | r :: rs =>
    r.file :: dedupFilesSpec (rs.filter (fun s => fileKey s.file ≠ fileKey r.file))
termination_by l => l.length
decreasing_by
  simp only [List.length_cons]
  exact Nat.lt_succ_of_le (List.length_filter_le _ _)

/-! ### Statistics Engine, spec-modelled (the engine's Python sources are not
part of the repository snapshot; only its documentation and its UI callers
are).  Definitions below marked `Modelled from the spec` follow the
specification's wording. -/

/-- Modelled from the spec: the missing Statistics Engine's percentage rule,
`used / total * 100` with the zero-total guard (`total = 0 ⇒ 0`). -/
def coveragePercentage (used total : Nat) : ℚ :=
  if total = 0 then 0 else (used : ℚ) / (total : ℚ) * 100

/-- The `test_case_coverage` record of the statistics snapshot, as consumed by
`CoverageSection.tsx`. -/
structure TestCaseCoverage where
  total_test_cases : Nat
  used_in_suites : Nat
  unused : Nat
  coverage_percentage : ℚ
deriving DecidableEq

/-- Modelled from the spec: the missing Statistics Engine's test-case coverage,
computed from the test-case paths and the suite-referrer sets of the
UsageIndex: `used` counts test cases with at least one referring suite,
`unused` the rest, and the percentage uses `coveragePercentage`. -/
def mkTestCaseCoverage (tcPaths : List String) (suiteRefs : String → List String) :
    TestCaseCoverage :=
  let used := (tcPaths.filter (fun p => !(suiteRefs p).isEmpty)).length
  { total_test_cases := tcPaths.length
    used_in_suites := used
    unused := tcPaths.length - used
    coverage_percentage := coveragePercentage used tcPaths.length }

/-- The usage report of the statistics snapshot for one artifact kind
(keywords or repository objects). -/
structure UsageReport where
  total_count : Nat
  used_count : Nat
  unused_names : List String
deriving DecidableEq

/-- Modelled from the spec: the missing Statistics Engine's per-kind usage
report: an artifact is used when its referrer set in the UsageIndex is
non-empty, unused otherwise; `unused_names` lists the unused artifacts. -/
def mkUsageReport (names : List String) (idx : String → List String) : UsageReport :=
  { total_count := names.length
    used_count := (names.filter (fun n => !(idx n).isEmpty)).length
    unused_names := names.filter (fun n => (idx n).isEmpty) }

/-- Scenario of the spec: ten test-case files. -/
def scenarioPaths : List String :=
  ["tc01", "tc02", "tc03", "tc04", "tc05", "tc06", "tc07", "tc08", "tc09", "tc10"]

/-- Scenario of the spec: the first seven test cases are each referenced by
exactly one suite, the last three by none. -/
def scenarioRefs (p : String) : List String :=
  if p = "tc01" ∨ p = "tc02" ∨ p = "tc03" ∨ p = "tc04" ∨ p = "tc05" ∨ p = "tc06" ∨ p = "tc07"
  then ["suiteA"] else []

/-! ### Reference Resolver, spec-modelled: suite entry resolution -/

/-- One test-case reference inside a test-suite file (a name/path reference,
not ownership). -/
structure SuiteEntryRef where
  name : String
  using_data_binding : Bool
deriving DecidableEq

/-- A resolved suite entry: the referenced name, and the full test-case record
when resolution against the global mapping succeeded (`none` is an unresolved
stub: name present, full record absent). -/
structure ResolvedSuiteEntry where
  name : String
  record : Option String
deriving DecidableEq

/-- Lookup of a suite entry name in the global TestCase mapping. -/
def lookupTC (tcMap : List (String × String)) (name : String) : Option String :=
  (tcMap.find? (fun kv => kv.1 == name)).map Prod.snd

/-- Modelled from the spec: the missing Reference Resolver's suite-entry
resolution.  Every reference is kept; a reference that does not resolve
becomes an unresolved stub rather than being dropped. -/
def resolveSuiteEntries (tcMap : List (String × String)) (refs : List SuiteEntryRef) :
    List ResolvedSuiteEntry :=
  refs.map (fun r => { name := r.name, record := lookupTC tcMap r.name })

/-! ### Statistics Engine, spec-modelled: canonical ranking order -/

/-- One entry of a most-referenced or unused list: an artifact name with its
referrer count. -/
structure RankedName where
  name : String
  count : Nat
deriving DecidableEq

/-- The spec's canonical list order: referrer count descending, ties broken by
name ascending. -/
def rankOrder (a b : RankedName) : Prop :=
  b.count < a.count ∨ (a.count = b.count ∧ a.name ≤ b.name)

instance : DecidableRel rankOrder := fun a b => by
  unfold rankOrder; exact inferInstance

instance : IsTotal RankedName rankOrder := by
  constructor
  intro a b
  rcases Nat.lt_trichotomy a.count b.count with h | h | h
  · exact Or.inr (Or.inl h)
  · rcases le_total a.name b.name with hn | hn
    · exact Or.inl (Or.inr ⟨h, hn⟩)
    · exact Or.inr (Or.inr ⟨h.symm, hn⟩)
  · exact Or.inl (Or.inl h)

instance : IsTrans RankedName rankOrder := by
  constructor
  intro a b c hab hbc
  rcases hab with h1 | ⟨h1, hn1⟩
  · rcases hbc with h2 | ⟨h2, _⟩
    · exact Or.inl (h2.trans h1)
    · exact Or.inl (h2 ▸ h1)
  · rcases hbc with h2 | ⟨h2, hn2⟩
    · exact Or.inl (h1 ▸ h2)
    · exact Or.inr ⟨h1.trans h2, hn1.trans hn2⟩

instance : IsAntisymm RankedName rankOrder := by
  constructor
  intro a b hab hba
  rcases hab with h1 | ⟨h1, hn1⟩
  · rcases hba with h2 | ⟨h2, _⟩
    · exact absurd (h1.trans h2) (lt_irrefl _)
    · exact absurd h1 (h2 ▸ lt_irrefl _)
  · rcases hba with h2 | ⟨h2, hn2⟩
    · exact absurd h2 (h1 ▸ lt_irrefl _)
    · cases a; cases b
      simp only at h1 hn1 hn2
      simp [le_antisymm hn1 hn2, h1]

/-- Modelled from the spec: the canonical ordering pass over a ranked list
(count descending, name ascending). -/
def canonicalRank (l : List RankedName) : List RankedName :=
  l.insertionSort rankOrder

/-- Modelled from the spec: the missing Statistics Engine's top-N
most-referenced list. -/
def topRanked (n : Nat) (l : List RankedName) : List RankedName :=
  (canonicalRank l).take n

/-- Modelled from the spec: the missing Statistics Engine's unused list,
produced in the same canonical order. -/
def unusedRanked (l : List RankedName) : List RankedName :=
  canonicalRank (l.filter (fun a => a.count == 0))

/-! ### Project Walker and analyze, spec-modelled -/

/-- A source file captured at walk time: normalized relative path and raw
content. -/
structure SourceFile where
  path : String
  content : String
deriving DecidableEq

/-- A per-file parse error: offending path and human-readable cause. -/
structure ParseErrorRec where
  path : String
  cause : String
deriving DecidableEq

/-- Modelled from the spec: the missing Format Parsers' shared contract —
file content to typed record (modelled by its parsed payload) or a
`ParseError` carrying the path; a structurally invalid (here: empty) file
fails, anything else parses. -/
def parseFile (f : SourceFile) : Except ParseErrorRec String :=
  if f.content = "" then Except.error { path := f.path, cause := "malformed file" }
  else Except.ok f.content

/-- Modelled from the spec: the missing Project Walker — parse every file,
collect the successful records into a path-keyed mapping and the failures
into a per-file error list; a failing file is excluded from the mapping and
never aborts the walk. -/
def walkFiles (files : List SourceFile) :
    List (String × String) × List ParseErrorRec :=
  ( files.filterMap (fun f =>
      match parseFile f with
      | Except.ok r => some (f.path, r)
      | Except.error _ => none)
  , files.filterMap (fun f =>
      match parseFile f with
      | Except.ok _ => none
      | Except.error e => some e) )

/-- The only fatal error of `analyze`: the root path is missing or
unreadable. -/
inductive AnalyzeError where
  | ProjectNotFound
deriving DecidableEq

/-- Modelled from the spec: `analyze(root_path)` — `none` models a root that
does not exist or is not readable; any readable root yields the walker's
(mappings, errors) pair. -/
def analyze (root : Option (List SourceFile)) :
    Except AnalyzeError (List (String × String) × List ParseErrorRec) :=
  match root with
  | none => Except.error AnalyzeError.ProjectNotFound
  | some files => Except.ok (walkFiles files)

/-! ### Full pipeline and export, spec-modelled (determinism) -/

/-- Canonical enumeration order for the walked file set: path ascending, ties
(same path) by content ascending — a total order on `SourceFile`, so the
pipeline depends only on the file set, not on directory-iteration order. -/
def fileOrder (f g : SourceFile) : Prop :=
  f.path < g.path ∨ (f.path = g.path ∧ f.content ≤ g.content)

instance : DecidableRel fileOrder := fun f g => by
  unfold fileOrder; exact inferInstance

instance : IsTotal SourceFile fileOrder := by
  constructor
  intro a b
  rcases lt_trichotomy a.path b.path with h | h | h
  · exact Or.inl (Or.inl h)
  · rcases le_total a.content b.content with hc | hc
    · exact Or.inl (Or.inr ⟨h, hc⟩)
    · exact Or.inr (Or.inr ⟨h.symm, hc⟩)
  · exact Or.inr (Or.inl h)

instance : IsTrans SourceFile fileOrder := by
  constructor
  intro a b c hab hbc
  rcases hab with h1 | ⟨h1, hc1⟩
  · rcases hbc with h2 | ⟨h2, _⟩
    · exact Or.inl (h1.trans h2)
    · exact Or.inl (h2 ▸ h1)
  · rcases hbc with h2 | ⟨h2, hc2⟩
    · exact Or.inl (h1 ▸ h2)
    · exact Or.inr ⟨h1.trans h2, hc1.trans hc2⟩

instance : IsAntisymm SourceFile fileOrder := by
  constructor
  intro a b hab hba
  rcases hab with h1 | ⟨h1, hc1⟩
  · rcases hba with h2 | ⟨h2, _⟩
    · exact absurd (h1.trans h2) (lt_irrefl _)
    · exact absurd h1 (h2 ▸ lt_irrefl _)
  · rcases hba with h2 | ⟨h2, hc2⟩
    · exact absurd h2 (h1 ▸ lt_irrefl _)
    · cases a; cases b
      simp only at h1 hc1 hc2
      simp [h1, le_antisymm hc1 hc2]

/-- Modelled from the spec: the Reference Resolver's textual matching — a
referrer is a file whose body contains the name as a substring (exact text
containment; `splitOn` yields more than one piece exactly when the name
occurs). -/
def referrersOf (name : String) (files : List SourceFile) : List String :=
  (files.filter (fun g => (g.content.splitOn name).length != 1)).map SourceFile.path

/-- Serialization of one mapping entry for `export()`. -/
def serializeEntry (e : String × String) : String :=
  "(" ++ e.1 ++ "=" ++ e.2 ++ ")"

/-- Serialization of one parse error for `export()`. -/
def serializeError (e : ParseErrorRec) : String :=
  "(" ++ e.path ++ "!" ++ e.cause ++ ")"

/-- Serialization of a rational percentage for `export()`. -/
def serializeRat (q : ℚ) : String :=
  toString q.num ++ "/" ++ toString q.den

/-- Serialization of a ranked entry for `export()`. -/
def serializeRanked (a : RankedName) : String :=
  "(" ++ a.name ++ "#" ++ toString a.count ++ ")"

/-- Modelled from the spec: the full pipeline behind `analyze` plus
`export()` — walk the canonicalized file set, parse, resolve references into
the UsageIndex, compute the statistics snapshot, and serialize everything to
one plain string (the byte output of `export()`). -/
def exportProject (files : List SourceFile) : String :=
  let canon := files.insertionSort fileOrder
  let walked := walkFiles canon
  let mapping := walked.1
  let errors := walked.2
  let names := mapping.map Prod.fst
  let idx := fun n => referrersOf n canon
  let cov := mkTestCaseCoverage names idx
  let report := mkUsageReport names idx
  let ranked := canonicalRank (names.map (fun n => { name := n, count := (idx n).length }))
  String.join (mapping.map serializeEntry) ++ ";" ++
    String.join (errors.map serializeError) ++ ";" ++
    toString cov.total_test_cases ++ "," ++ toString cov.used_in_suites ++ "," ++
    toString cov.unused ++ "," ++ serializeRat cov.coverage_percentage ++ ";" ++
    toString report.total_count ++ "," ++ toString report.used_count ++ "," ++
    String.join report.unused_names ++ ";" ++
    String.join (ranked.map serializeRanked)

/-! ## Helper lemmas -/

/-- Evaluation of `String.trim` on the literal used by the C9 counterexample
(`Substring.takeWhileAux` is defined by well-founded recursion, so the kernel
does not reduce it; we step its equations once by hand). -/
theorem trim_b_eq : "b".trim = "b" := by
  simp only [String.trim, String.toSubstring, Substring.trim, Substring.trimRight,
    Substring.trimLeft, String.endPos]
  rw [Substring.takeWhileAux]
  rw [Substring.takeRightWhileAux]
  decide

/-- One pagination click keeps the page within `[1, tp]` when it was there
before. -/
theorem clickStep_bounds (tp page : Nat) (htp : 1 ≤ tp) (h1 : 1 ≤ page)
    (h2 : page ≤ tp) (c : PageClick) (hc : validClick tp c) :
    1 ≤ clickStep tp page c ∧ clickStep tp page c ≤ tp := by
  cases c with
  | first => exact ⟨le_refl 1, htp⟩
  | prev => constructor <;> simp [clickStep] <;> omega
  | next => constructor <;> simp [clickStep] <;> omega
  | last => exact ⟨htp, le_refl tp⟩
  | item n => exact hc

/-- Folding any valid click sequence from a page in `[1, tp]` stays in
`[1, tp]`. -/
theorem runClicks_bounds_aux (tp : Nat) (htp : 1 ≤ tp) (clicks : List PageClick) :
    ∀ page : Nat, 1 ≤ page → page ≤ tp → (∀ c ∈ clicks, validClick tp c) →
      1 ≤ clicks.foldl (clickStep tp) page ∧ clicks.foldl (clickStep tp) page ≤ tp := by
  induction clicks with
  | nil => intro page h1 h2 _; exact ⟨h1, h2⟩
  | cons c cs ih =>
    intro page h1 h2 hv
    have hc := clickStep_bounds tp page htp h1 h2 c (hv c (List.mem_cons_self c cs))
    exact ih (clickStep tp page c) hc.1 hc.2 (fun d hd => hv d (List.mem_cons_of_mem c hd))

/-! ## Claim theorems -/

/-- C3 counterexample: the profiles endpoint does not reject a blank query —
`getProfiles` with the empty query succeeds and issues the request for the
full profile listing (the `q` parameter is silently dropped), contradicting
the claim that every entity kind fails with an empty-query error. -/
theorem C3_counterexample :
    getProfiles "proj" (some "") = Except.ok [("project_path", "proj")] := rfl

/-- C3 (amended): for the test-case, keyword, test-suite and
object-repository search endpoints, an empty or whitespace-only query fails
with the empty-query error and no request is issued; the profiles and
scripts endpoints however do not reject a blank query — an empty query is
silently dropped and the unfiltered listing is fetched. -/
theorem C3_blank_query_amended (projectPath query : String)
    (h : query = "" ∨ (query.trim).length = 0) :
    searchTestCases projectPath query = Except.error "Search query cannot be empty" ∧
    searchKeywords projectPath query = Except.error "Search query cannot be empty" ∧
    searchTestSuites projectPath query = Except.error "Search query cannot be empty" ∧
    searchObjectRepository projectPath query = Except.error "Search query cannot be empty" ∧
    (∀ p, getProfiles p (some "") = Except.ok [("project_path", p)]) ∧
    (∀ p, getScripts p (some "") = Except.ok [("project_path", p)]) := by
  refine ⟨?_, ?_, ?_, ?_, fun p => rfl, fun p => rfl⟩ <;>
    simp [searchTestCases, searchKeywords, searchTestSuites, searchObjectRepository, h]

/-- C3 witness: the amended theorem applied to the concrete empty query. -/
theorem C3_blank_query_witness :
    (("" : String) = "" ∨ (("" : String).trim).length = 0) ∧
    searchTestCases "proj" "" = Except.error "Search query cannot be empty" :=
  ⟨Or.inl rfl, (C3_blank_query_amended "proj" "" (Or.inl rfl)).1⟩

/-- C8: in every paginated section component the current page stays within
bounds — starting from page 1, any sequence of deliverable pagination clicks
(First, Prev, Next, Last, or a rendered page item) keeps the page in
`[1, totalPages]` whenever `total > 0`. -/
theorem C8_pagination_in_bounds (total : Nat) (clicks : List PageClick)
    (htotal : 0 < total)
    (hvalid : ∀ c ∈ clicks, validClick (totalPages total) c) :
    1 ≤ runClicks (totalPages total) clicks ∧
      runClicks (totalPages total) clicks ≤ totalPages total := by
  have htp : 1 ≤ totalPages total := by
    unfold totalPages itemsPerPage
    omega
  exact runClicks_bounds_aux (totalPages total) htp clicks 1 (le_refl 1) htp hvalid

/-- C8 witness: a concrete click sequence on a 25-item listing (3 pages). -/
theorem C8_pagination_witness :
    0 < 25 ∧
    (∀ c ∈ [PageClick.next, PageClick.next, PageClick.next, PageClick.item 2,
        PageClick.prev, PageClick.last, PageClick.first], validClick (totalPages 25) c) ∧
    1 ≤ runClicks (totalPages 25)
        [PageClick.next, PageClick.next, PageClick.next, PageClick.item 2,
          PageClick.prev, PageClick.last, PageClick.first] ∧
    runClicks (totalPages 25)
        [PageClick.next, PageClick.next, PageClick.next, PageClick.item 2,
          PageClick.prev, PageClick.last, PageClick.first] ≤ totalPages 25 := by
  refine ⟨by decide, ?_, ?_⟩
  · intro c hc
    fin_cases hc <;> simp [validClick, totalPages, itemsPerPage]
  · exact C8_pagination_in_bounds 25 _ (by decide) (by
      intro c hc
      fin_cases hc <;> simp [validClick, totalPages, itemsPerPage])

/-- C9 counterexample: starting from a persisted recent-projects list that
already contains a duplicate (`["a", "a"]`), selecting project `"b"` leaves
the duplicate in place — the stored list is `["b", "a", "a"]`, which is not
duplicate-free, refuting the claim for arbitrary prior list states. -/
theorem C9_counterexample :
    updateRecent ["a", "a"] "b" = ["b", "a", "a"] ∧
      ¬ (updateRecent ["a", "a"] "b").Nodup := by
  unfold updateRecent
  simp only [trim_b_eq]
  decide

/-- C9 (amended): after every successful project selection the persisted
recent-projects list begins with the newly selected trimmed path, contains
that trimmed path exactly once, and has length at most 5; it is duplicate-free
whenever the prior list was duplicate-free (which holds for every list the
component itself produces), but a duplicate already present in the prior list
among the other entries is not removed. -/
theorem C9_recent_projects_amended (recent : List String) (path : String) :
    (updateRecent recent path).head? = some path.trim ∧
    (updateRecent recent path).length ≤ 5 ∧
    (updateRecent recent path).count path.trim = 1 ∧
    (recent.Nodup → (updateRecent recent path).Nodup) := by
  unfold updateRecent
  have htake : (path.trim :: recent.filter (fun p => p ≠ path.trim)).take 5 =
      path.trim :: (recent.filter (fun p => p ≠ path.trim)).take 4 := rfl
  rw [htake]
  have hnotmem : path.trim ∉ (recent.filter (fun p => p ≠ path.trim)).take 4 := by
    intro hmem
    have := List.mem_filter.mp ((List.take_subset 4 _) hmem)
    simp at this
  refine ⟨rfl, ?_, ?_, ?_⟩
  · have := List.length_take_le 4 (recent.filter (fun p => p ≠ path.trim))
    simp only [List.length_cons]
    omega
  · rw [List.count_cons_self, List.count_eq_zero_of_not_mem hnotmem]
  · intro hnd
    exact List.Nodup.cons hnotmem
      (((recent.filter (fun p => p ≠ path.trim)).take_sublist 4).nodup (hnd.filter _))

/-- C9 witness: the amended theorem applied to a duplicate-free prior list. -/
theorem C9_recent_projects_witness :
    (["x"] : List String).Nodup ∧ (updateRecent ["x"] "b").Nodup :=
  ⟨by decide, (C9_recent_projects_amended ["x"] "b").2.2.2 (by decide)⟩

/-- C5: every test-case reference of a test suite is retained by resolution —
the resolved entry list has exactly one entry per reference (so the suite's
reported test-case count equals the number of references in the suite file),
and a reference that does not resolve against the global TestCase mapping is
kept as an unresolved stub (name present, record absent) rather than
dropped. -/
theorem C5_unresolved_stub_retained (tcMap : List (String × String))
    (refs : List SuiteEntryRef) :
    (resolveSuiteEntries tcMap refs).length = refs.length ∧
    ∀ r ∈ refs, lookupTC tcMap r.name = none →
      ({ name := r.name, record := none } : ResolvedSuiteEntry) ∈
        resolveSuiteEntries tcMap refs := by
  constructor
  · simp [resolveSuiteEntries]
  · intro r hr hnone
    have : ({ name := r.name, record := lookupTC tcMap r.name } : ResolvedSuiteEntry) ∈
        resolveSuiteEntries tcMap refs := List.mem_map_of_mem _ hr
    rwa [hnone] at this

/-- C5 witness: a suite referencing the unknown test case `"missing"` keeps a
stub entry for it. -/
theorem C5_unresolved_stub_witness :
    (⟨"missing", false⟩ : SuiteEntryRef) ∈
      [(⟨"missing", false⟩ : SuiteEntryRef)] ∧
    lookupTC [("known", "recA")] "missing" = none ∧
    ({ name := "missing", record := none } : ResolvedSuiteEntry) ∈
      resolveSuiteEntries [("known", "recA")] [⟨"missing", false⟩] :=
  ⟨List.mem_singleton_self _, by decide,
    (C5_unresolved_stub_retained [("known", "recA")] [⟨"missing", false⟩]).2
      ⟨"missing", false⟩ (List.mem_singleton_self _) (by decide)⟩

/-- C7: `analyze` fails exactly when the root is missing (`ProjectNotFound`);
for any readable file set it returns the walker's pair of successful mappings
and per-file errors, a file whose parse fails is recorded in the error list
and (given unique paths) contributes no mapping entry, and no parse failure
aborts the analysis. -/
theorem C7_partial_failure_tolerance :
    (∀ root, (∃ e, analyze root = Except.error e) ↔ root = none) ∧
    analyze none = Except.error AnalyzeError.ProjectNotFound ∧
    ∀ (files : List SourceFile) (f : SourceFile) (e : ParseErrorRec),
      f ∈ files → parseFile f = Except.error e →
      analyze (some files) = Except.ok (walkFiles files) ∧
      e ∈ (walkFiles files).2 ∧
      ((files.map SourceFile.path).Nodup →
        f.path ∉ (walkFiles files).1.map Prod.fst) := by
  refine ⟨?_, rfl, ?_⟩
  · intro root
    cases root with
    | none =>
      simp only [analyze, iff_true]
      exact ⟨AnalyzeError.ProjectNotFound, trivial⟩
    | some files => simp [analyze]
  · intro files f e hf herr
    refine ⟨rfl, ?_, ?_⟩
    · unfold walkFiles
      simp only [List.mem_filterMap]
      exact ⟨f, hf, by rw [herr]⟩
    · intro hnodup hmem
      unfold walkFiles at hmem
      simp only [List.map_filterMap, List.mem_filterMap] at hmem
      obtain ⟨g, hg, hgeq⟩ := hmem
      have hgok : ∃ r, parseFile g = Except.ok r ∧ g.path = f.path := by
        cases hpg : parseFile g with
        | ok r =>
          rw [hpg] at hgeq
          simp at hgeq
          exact ⟨r, rfl, hgeq⟩
        | error e2 =>
          rw [hpg] at hgeq
          simp at hgeq
      obtain ⟨r, hr, hpath⟩ := hgok
      have : g = f := List.inj_on_of_nodup_map hnodup hg hf hpath
      rw [this, herr] at hr
      exact Except.noConfusion hr

/-- C7 witness: a project with one well-formed and one malformed file — the
analysis still succeeds, the malformed file lands in the error list and not
in the mapping. -/
theorem C7_partial_failure_witness :
    (⟨"b.tc", ""⟩ : SourceFile) ∈
      [(⟨"a.tc", "body"⟩ : SourceFile), ⟨"b.tc", ""⟩] ∧
    parseFile ⟨"b.tc", ""⟩ =
      Except.error { path := "b.tc", cause := "malformed file" } ∧
    ([(⟨"a.tc", "body"⟩ : SourceFile), ⟨"b.tc", ""⟩].map SourceFile.path).Nodup ∧
    ({ path := "b.tc", cause := "malformed file" } : ParseErrorRec) ∈
      (walkFiles [⟨"a.tc", "body"⟩, ⟨"b.tc", ""⟩]).2 ∧
    "b.tc" ∉ (walkFiles [⟨"a.tc", "body"⟩, ⟨"b.tc", ""⟩]).1.map Prod.fst := by
  have h := (C7_partial_failure_tolerance.2.2
    [⟨"a.tc", "body"⟩, ⟨"b.tc", ""⟩] ⟨"b.tc", ""⟩
    { path := "b.tc", cause := "malformed file" }
    (by decide) rfl)
  exact ⟨by decide, rfl, by decide, h.2.1, h.2.2 (by decide)⟩

/-- C1: the statistics engine's coverage percentage is `used / total * 100`
with the zero-total guard, always lies in `[0, 100]`, and the spec's concrete
scenario (10 test cases, 7 referenced by a suite) yields
`{total: 10, used: 7, unused: 3, coverage_percentage: 70}`. -/
theorem C1_coverage_percentage (tcPaths : List String)
    (suiteRefs : String → List String) :
    0 ≤ (mkTestCaseCoverage tcPaths suiteRefs).coverage_percentage ∧
    (mkTestCaseCoverage tcPaths suiteRefs).coverage_percentage ≤ 100 ∧
    ((mkTestCaseCoverage tcPaths suiteRefs).total_test_cases = 0 →
      (mkTestCaseCoverage tcPaths suiteRefs).coverage_percentage = 0) ∧
    ((mkTestCaseCoverage tcPaths suiteRefs).total_test_cases ≠ 0 →
      (mkTestCaseCoverage tcPaths suiteRefs).coverage_percentage =
        ((mkTestCaseCoverage tcPaths suiteRefs).used_in_suites : ℚ) /
          ((mkTestCaseCoverage tcPaths suiteRefs).total_test_cases : ℚ) * 100) ∧
    mkTestCaseCoverage scenarioPaths scenarioRefs =
      { total_test_cases := 10, used_in_suites := 7, unused := 3,
        coverage_percentage := 70 } := by
  have hused : (tcPaths.filter (fun p => !(suiteRefs p).isEmpty)).length ≤ tcPaths.length :=
    List.length_filter_le _ _
  refine ⟨?_, ?_, ?_, ?_, ?_⟩
  · unfold mkTestCaseCoverage coveragePercentage
    simp only
    split
    · exact le_refl 0
    · positivity
  · unfold mkTestCaseCoverage coveragePercentage
    simp only
    split
    · norm_num
    · rename_i htot
      have hpos : (0 : ℚ) < (tcPaths.length : ℚ) := by
        have : 0 < tcPaths.length := Nat.pos_of_ne_zero htot
        exact_mod_cast this
      have hdivle : ((tcPaths.filter (fun p => !(suiteRefs p).isEmpty)).length : ℚ) /
          (tcPaths.length : ℚ) ≤ 1 := by
        rw [div_le_one hpos]
        exact_mod_cast hused
      calc ((tcPaths.filter (fun p => !(suiteRefs p).isEmpty)).length : ℚ) /
            (tcPaths.length : ℚ) * 100 ≤ 1 * 100 := by
              exact mul_le_mul_of_nonneg_right hdivle (by norm_num)
        _ = 100 := by norm_num
  · intro h0
    unfold mkTestCaseCoverage coveragePercentage
    unfold mkTestCaseCoverage at h0
    simp only at h0 ⊢
    rw [if_pos h0]
  · intro h0
    unfold mkTestCaseCoverage coveragePercentage
    unfold mkTestCaseCoverage at h0
    simp only at h0 ⊢
    rw [if_neg h0]
  · have hfilter : (scenarioPaths.filter (fun p => !(scenarioRefs p).isEmpty)).length = 7 := by
      simp [scenarioPaths, scenarioRefs]
    unfold mkTestCaseCoverage coveragePercentage
    simp only [hfilter]
    have hlen : scenarioPaths.length = 10 := rfl
    rw [hlen]
    norm_num

/-- C1 witness: the scenario instance has non-zero total, and there the
percentage law gives exactly `7 / 10 * 100`. -/
theorem C1_coverage_witness :
    (mkTestCaseCoverage scenarioPaths scenarioRefs).total_test_cases ≠ 0 ∧
    (mkTestCaseCoverage scenarioPaths scenarioRefs).coverage_percentage =
      ((mkTestCaseCoverage scenarioPaths scenarioRefs).used_in_suites : ℚ) /
        ((mkTestCaseCoverage scenarioPaths scenarioRefs).total_test_cases : ℚ) * 100 := by
  have h0 : (mkTestCaseCoverage scenarioPaths scenarioRefs).total_test_cases ≠ 0 := by
    unfold mkTestCaseCoverage
    simp [scenarioPaths]
  exact ⟨h0, (C1_coverage_percentage scenarioPaths scenarioRefs).2.2.2.1 h0⟩

/-- C2: in the statistics snapshot an artifact appears in the unused list
exactly when its referrer set in the UsageIndex is empty, and the used count
plus the number of unused artifacts equals the total count (for each kind:
the report is computed uniformly from the kind's names and the index). -/
theorem C2_unused_iff_no_referrers (names : List String)
    (idx : String → List String) :
    (∀ n, n ∈ (mkUsageReport names idx).unused_names ↔ (n ∈ names ∧ idx n = [])) ∧
    (mkUsageReport names idx).used_count + (mkUsageReport names idx).unused_names.length =
      (mkUsageReport names idx).total_count := by
  constructor
  · intro n
    unfold mkUsageReport
    simp only [List.mem_filter, List.isEmpty_iff]
  · unfold mkUsageReport
    simp only
    have h := List.length_eq_length_filter_add (l := names)
      (fun n => !(idx n).isEmpty)
    have hcongr : names.filter (fun n => !(!(idx n).isEmpty)) =
        names.filter (fun n => (idx n).isEmpty) := by
      simp
    rw [h, hcongr]

/-- C2 witness: the membership law at a concrete two-keyword snapshot where
only `"A"` has a referrer. -/
theorem C2_unused_witness :
    ("B" ∈ (mkUsageReport ["A", "B"]
        (fun n => if n = "A" then ["caller"] else [])).unused_names ↔
      ("B" ∈ ["A", "B"] ∧
        (if "B" = "A" then ["caller"] else ([] : List String)) = [])) :=
  (C2_unused_iff_no_referrers ["A", "B"]
    (fun n => if n = "A" then ["caller"] else [])).1 "B"

/-- C6: the statistics engine's top-N most-referenced lists and unused lists
are canonical — sorted by referrer count descending with ties broken by name
ascending — and identical inputs produce identical lists regardless of the
enumeration order in which the entries arrive. -/
theorem C6_canonical_order (n : Nat) (l₁ l₂ : List RankedName) (hperm : l₁.Perm l₂) :
    topRanked n l₁ = topRanked n l₂ ∧
    unusedRanked l₁ = unusedRanked l₂ ∧
    List.Sorted rankOrder (topRanked n l₁) ∧
    List.Sorted rankOrder (unusedRanked l₁) := by
  have hcanon : ∀ {a b : List RankedName}, a.Perm b → canonicalRank a = canonicalRank b := by
    intro a b hab
    exact List.eq_of_perm_of_sorted
      ((List.perm_insertionSort _ _).trans (hab.trans (List.perm_insertionSort _ _).symm))
      (List.sorted_insertionSort _ _) (List.sorted_insertionSort _ _)
  refine ⟨?_, ?_, ?_, ?_⟩
  · unfold topRanked
    rw [hcanon hperm]
  · unfold unusedRanked
    rw [hcanon (hperm.filter _)]
  · exact List.Pairwise.sublist (List.take_sublist n _) (List.sorted_insertionSort _ _)
  · exact List.sorted_insertionSort _ _

/-- C6 witness: two enumeration orders of the same ranked entries give the
same top-2 list. -/
theorem C6_canonical_witness :
    ([⟨"b", 1⟩, ⟨"a", 2⟩] : List RankedName).Perm [⟨"a", 2⟩, ⟨"b", 1⟩] ∧
    topRanked 2 [⟨"b", 1⟩, ⟨"a", 2⟩] = topRanked 2 [⟨"a", 2⟩, ⟨"b", 1⟩] :=
  ⟨List.Perm.swap _ _ _,
    (C6_canonical_order 2 [⟨"b", 1⟩, ⟨"a", 2⟩] [⟨"a", 2⟩, ⟨"b", 1⟩]
      (List.Perm.swap _ _ _)).1⟩

/-- C4: the full pipeline (walk, parse, resolve, statistics, export) is a
deterministic function of the file set — any two enumerations of the same
files (in particular, two runs over an unchanged directory) produce
byte-identical `export()` output. -/
theorem C4_pipeline_deterministic (l₁ l₂ : List SourceFile) (hperm : l₁.Perm l₂) :
    exportProject l₁ = exportProject l₂ := by
  have hc : l₁.insertionSort fileOrder = l₂.insertionSort fileOrder :=
    List.eq_of_perm_of_sorted
      ((List.perm_insertionSort _ _).trans (hperm.trans (List.perm_insertionSort _ _).symm))
      (List.sorted_insertionSort _ _) (List.sorted_insertionSort _ _)
  unfold exportProject
  rw [hc]

/-- C4 witness: two directory-iteration orders of the same two files export
the same bytes. -/
theorem C4_pipeline_witness :
    ([(⟨"a.tc", "x"⟩ : SourceFile), ⟨"b.tc", "y"⟩] : List SourceFile).Perm
      [⟨"b.tc", "y"⟩, ⟨"a.tc", "x"⟩] ∧
    exportProject [⟨"a.tc", "x"⟩, ⟨"b.tc", "y"⟩] =
      exportProject [⟨"b.tc", "y"⟩, ⟨"a.tc", "x"⟩] :=
  ⟨List.Perm.swap _ _ _,
    C4_pipeline_deterministic _ _ (List.Perm.swap _ _ _)⟩

/-- Every file kept by the dedup loop comes from some result. -/
theorem dedupFilesGo_subset (rs : List KwSearchResult) :
    ∀ (seen : List String), ∀ x ∈ dedupFilesGo seen rs, x ∈ rs.map KwSearchResult.file := by
  induction rs with
  | nil => intro seen x hx; simp [dedupFilesGo] at hx
  | cons r rs ih =>
    intro seen x hx
    rw [dedupFilesGo] at hx
    by_cases h : fileKey r.file ∈ seen
    · rw [if_pos h] at hx
      exact List.mem_cons_of_mem _ (ih seen x hx)
    · rw [if_neg h] at hx
      rcases List.mem_cons.mp hx with hx | hx
      · exact hx ▸ List.mem_cons_self _ _
      · exact List.mem_cons_of_mem _ (ih _ x hx)

/-- The keys of the dedup loop's output are duplicate-free and disjoint from
the keys already seen. -/
theorem dedupFilesGo_keys_nodup (rs : List KwSearchResult) :
    ∀ (seen : List String),
      ((dedupFilesGo seen rs).map fileKey).Nodup ∧
      ∀ k ∈ (dedupFilesGo seen rs).map fileKey, k ∉ seen := by
  induction rs with
  | nil => intro seen; simp [dedupFilesGo]
  | cons r rs ih =>
    intro seen
    rw [dedupFilesGo]
    by_cases h : fileKey r.file ∈ seen
    · rw [if_pos h]
      exact ih seen
    · rw [if_neg h]
      have ihk := ih (fileKey r.file :: seen)
      refine ⟨?_, ?_⟩
      · simp only [List.map_cons, List.nodup_cons]
        refine ⟨fun hmem => ?_, ihk.1⟩
        exact (ihk.2 _ hmem) (List.mem_cons_self _ _)
      · intro k hk
        simp only [List.map_cons, List.mem_cons] at hk
        rcases hk with rfl | hk
        · exact h
        · exact fun hks => (ihk.2 k hk) (List.mem_cons_of_mem _ hks)

/-- A key appears in the dedup loop's output exactly when some result carries
it and it was not already seen. -/
theorem dedupFilesGo_mem_keys (rs : List KwSearchResult) :
    ∀ (seen : List String) (k : String),
      k ∈ (dedupFilesGo seen rs).map fileKey ↔
        (k ∈ rs.map (fun r => fileKey r.file) ∧ k ∉ seen) := by
  induction rs with
  | nil => intro seen k; simp [dedupFilesGo]
  | cons r rs ih =>
    intro seen k
    rw [dedupFilesGo]
    by_cases h : fileKey r.file ∈ seen
    · rw [if_pos h]
      rw [ih seen k]
      simp only [List.map_cons, List.mem_cons]
      constructor
      · rintro ⟨hk, hks⟩
        exact ⟨Or.inr hk, hks⟩
      · rintro ⟨hk | hk, hks⟩
        · exact absurd (hk ▸ h) hks
        · exact ⟨hk, hks⟩
    · rw [if_neg h]
      simp only [List.map_cons, List.mem_cons]
      rw [ih (fileKey r.file :: seen) k]
      constructor
      · rintro (rfl | ⟨hk, hks⟩)
        · exact ⟨Or.inl rfl, h⟩
        · exact ⟨Or.inr hk, fun hs => hks (List.mem_cons_of_mem _ hs)⟩
      · rintro ⟨rfl | hk, hks⟩
        · exact Or.inl rfl
        · by_cases hkr : k = fileKey r.file
          · exact Or.inl hkr
          · refine Or.inr ⟨hk, fun hs => ?_⟩
            rcases List.mem_cons.mp hs with h1 | h1
            · exact hkr h1
            · exact hks h1

/-- The source's `Map`-based dedup loop equals the claim's first-occurrence
description, relative to any set of already-seen keys. -/
theorem dedupFilesGo_eq_spec (rs : List KwSearchResult) :
    ∀ (seen : List String),
      dedupFilesGo seen rs =
        dedupFilesSpec (rs.filter (fun s => fileKey s.file ∉ seen)) := by
  induction rs with
  | nil => intro seen; simp [dedupFilesGo, dedupFilesSpec]
  | cons r rs ih =>
    intro seen
    rw [dedupFilesGo]
    by_cases h : fileKey r.file ∈ seen
    · rw [if_pos h, List.filter_cons_of_neg (by simpa using h)]
      exact ih seen
    · rw [if_neg h, List.filter_cons_of_pos (by simpa using h), dedupFilesSpec]
      rw [ih (fileKey r.file :: seen), List.filter_filter]
      congr 1
      congr 1
      apply List.filter_congr
      intro s _
      rw [← Bool.decide_and, decide_eq_decide]
      constructor
      · intro hnot
        exact ⟨fun he => hnot (he ▸ List.mem_cons_self _ _),
          fun hm => hnot (List.mem_cons_of_mem _ hm)⟩
      · intro hns hmem
        rcases List.mem_cons.mp hmem with h1 | h1
        · exact hns.1 h1
        · exact hns.2 h1

/-- C10: for a keyword-search response whose results all carry a file with a
non-empty `relative_path`, the keywords view shows exactly one row per
distinct `relative_path` — the dedup equals the first-occurrence
description (file object of the first result with that path, in
first-occurrence order), row keys are duplicate-free and are the files'
relative paths, and the displayed total is the number of distinct files
rather than the number of matching results. -/
theorem C10_keyword_dedup (results : List KwSearchResult)
    (h : ∀ r ∈ results, ∃ f, r.file = some f ∧ f.relative_path ≠ "") :
    dedupFiles results = dedupFilesSpec results ∧
    ((dedupFiles results).map fileKey).Nodup ∧
    (∀ x ∈ dedupFiles results, ∃ f, x = some f ∧ fileKey x = f.relative_path) ∧
    (dedupFiles results).length =
      (results.map (fun r => fileKey r.file)).toFinset.card := by
  refine ⟨?_, (dedupFilesGo_keys_nodup results []).1, ?_, ?_⟩
  · unfold dedupFiles
    rw [dedupFilesGo_eq_spec results []]
    congr 1
    apply List.filter_eq_self.mpr
    intro a _
    simp
  · intro x hx
    have hxmem := dedupFilesGo_subset results [] x hx
    obtain ⟨r, hr, hrx⟩ := List.mem_map.mp hxmem
    obtain ⟨f, hf, hfp⟩ := h r hr
    refine ⟨f, by rw [← hrx, hf], ?_⟩
    rw [← hrx, hf]
    unfold fileKey
    simp [hfp]
  · have hnd : ((dedupFiles results).map fileKey).Nodup :=
      (dedupFilesGo_keys_nodup results []).1
    have hset : ((dedupFiles results).map fileKey).toFinset =
        (results.map (fun r => fileKey r.file)).toFinset := by
      apply Finset.ext
      intro k
      simp only [List.mem_toFinset]
      rw [show (dedupFiles results).map fileKey = (dedupFilesGo [] results).map fileKey from rfl]
      rw [dedupFilesGo_mem_keys results [] k]
      simp
    calc (dedupFiles results).length = ((dedupFiles results).map fileKey).length := by
          rw [List.length_map]
      _ = ((dedupFiles results).map fileKey).toFinset.card :=
          (List.toFinset_card_of_nodup hnd).symm
      _ = (results.map (fun r => fileKey r.file)).toFinset.card := by rw [hset]

/-- C10 witness: two results owned by the same file collapse to one row and a
displayed total of 1. -/
theorem C10_keyword_dedup_witness :
    (∀ r ∈ ([⟨"kwA", some ⟨"p1", "P"⟩⟩, ⟨"kwB", some ⟨"p1", "P"⟩⟩] :
        List KwSearchResult), ∃ f, r.file = some f ∧ f.relative_path ≠ "") ∧
    (dedupFiles [⟨"kwA", some ⟨"p1", "P"⟩⟩, ⟨"kwB", some ⟨"p1", "P"⟩⟩]).length =
      (([⟨"kwA", some ⟨"p1", "P"⟩⟩, ⟨"kwB", some ⟨"p1", "P"⟩⟩] :
          List KwSearchResult).map (fun r => fileKey r.file)).toFinset.card := by
  have h : ∀ r ∈ ([⟨"kwA", some ⟨"p1", "P"⟩⟩, ⟨"kwB", some ⟨"p1", "P"⟩⟩] :
      List KwSearchResult), ∃ f, r.file = some f ∧ f.relative_path ≠ "" := by
    intro r hr
    rcases List.mem_cons.mp hr with rfl | hr
    · exact ⟨⟨"p1", "P"⟩, rfl, by decide⟩
    · rcases List.mem_cons.mp hr with rfl | hr
      · exact ⟨⟨"p1", "P"⟩, rfl, by decide⟩
      · simp at hr
  exact ⟨h, (C10_keyword_dedup _ h).2.2.2⟩

end AnalyzerKatalon
